import Mathlib

/-!
Verification of the MAX30101 sample sketches (v2.ino, v3.ino, v4.ino).
The three Arduino sketches poll a SparkFun bio-sensor hub, filter readings by
a confidence threshold, and periodically print averages.  This file gives a
shallow embedding of the loop and setup logic of the three sketches and proves
or refutes the specification claims about them.
Modelling conventions, used throughout:
* C++ `int`/`long` sensor fields are modelled as `ℤ`; `float` accumulators as
  `ℚ` (exact arithmetic; float rounding is outside the model).
* `millis()` returns `unsigned long` (32 bit); the subtraction
  `millis() - last` is modelled by `wsub`, subtraction modulo 2^32.
* Serial output is modelled per sketch as the data that is printed
  (an inductive report type, or a list of serial items for `setup`).
* Dead state is elided: fields of a buffer slot that are never read after
  being stored (and never reset) are omitted, and v3's physical 100-element
  array is modelled by the list of its live prefix `readings[0..readingCount)`
  (the code never reads past `readingCount`).
-/


/-- 32-bit wrap-around subtraction `a - b` on the values of the free-running
millisecond counter, as computed on `unsigned long` in the sketches. -/
def wsub (a b : ℕ) : ℕ :=
  (a % 4294967296 + 4294967296 - b % 4294967296) % 4294967296

/-! ## v4.ino: top-5 replace-the-min buffer -/

/-- The fields of a `bioData` record that v4.ino reads from `topReadings`
(`heartRate`, `oxygen`, `confidence`); the remaining fields of the stored
`bioData` are never read back nor reset, so they are elided as dead state. -/
structure BD4 where
  heartRate : ℤ
  oxygen : ℤ
  confidence : ℤ
deriving DecidableEq, Repr

/-- The all-zero slot value written by `setup` and by the per-second reset. -/
def zeroSlot : BD4 := ⟨0, 0, 0⟩

/-- `topReadings` right after `setup` (and after every reset): 5 slots with
confidence 0. -/
def emptyBuf : List BD4 := List.replicate 5 zeroSlot

/-- The scan `for (i = 1; i < NUM_READINGS; i++) if (topReadings[i].confidence
< topReadings[minConfidenceIndex].confidence) minConfidenceIndex = i;` of
v4.ino, folded over the remaining index list. -/
def minIdxGo (b : List BD4) : List ℕ → ℕ → ℕ
  | [], best => best
  | i :: is, best =>
      minIdxGo b is
        (if (b.getD i zeroSlot).confidence < (b.getD best zeroSlot).confidence then i else best)

/-- `minConfidenceIndex` as computed by v4.ino's loop (indices 1..4, starting
from 0). -/
def minIdx (b : List BD4) : ℕ := minIdxGo b [1, 2, 3, 4] 0

/-- The v4.ino top-readings update for one sensor reading: readings with
confidence > 50 replace the minimum-confidence slot when they strictly beat
it; everything else leaves the buffer unchanged (v4.ino lines 127-141). -/
def v4insert (b : List BD4) (body : BD4) : List BD4 :=
  if 50 < body.confidence then
    if (b.getD (minIdx b) zeroSlot).confidence < body.confidence then
      b.set (minIdx b) body
    else b
  else b

/-- Confidences of all 5 slots, as a multiset. -/
def slotConfs (b : List BD4) : Multiset ℤ := (b.map (fun x => x.confidence) : List ℤ)

/-- Confidences of the populated slots (confidence > 0), as a multiset. -/
def popConfs (b : List BD4) : Multiset ℤ := (slotConfs b).filter (fun c => 0 < c)

/-- Buffer well-formedness maintained by v4.ino: 5 slots, each either empty
(confidence 0, as initialised) or holding an accepted reading
(confidence > 50, i.e. ≥ 51). -/
def GoodBuf (b : List BD4) : Prop :=
  b.length = 5 ∧ ∀ x ∈ b, x.confidence = 0 ∨ 51 ≤ x.confidence

/-- `sel` consists of the `min 5 (card cs)` largest elements of `cs`:
it is a sub-multiset of that cardinality dominating everything left over.
This is the formal reading of "the top-K buffer contains the K highest
confidence values seen in the current window (fewer when fewer have
arrived)". -/
def IsTopSelection (cs sel : Multiset ℤ) : Prop :=
  ∃ rest, cs = sel + rest ∧ Multiset.card sel = min 5 (Multiset.card cs) ∧
    ∀ x ∈ rest, ∀ y ∈ sel, x ≤ y

/-- The readings of a window that pass the `confidence > 50` filter. -/
def v4accepted (rs : List BD4) : List BD4 :=
  rs.filter fun r => decide (50 < r.confidence)

/-- The confidence values of a list of readings, as a multiset. -/
def confsOf (rs : List BD4) : Multiset ℤ := (rs.map fun r => r.confidence : List ℤ)

/-- `topReadings` after v4.ino's loop body has processed the readings `rs` of
one reporting window, starting from the freshly reset buffer. -/
def v4window (rs : List BD4) : List BD4 := rs.foldl v4insert emptyBuf

/-! ## v3.ino: collect-then-sort buffer -/

/-- The `Reading` struct of v3.ino. -/
structure Reading where
  heartRate : ℤ
  confidence : ℤ
  oxygen : ℤ
  irLed : ℤ
  redLed : ℤ
  status : ℤ
deriving DecidableEq, Repr

/-- Default reading (only the `getD` fallback; all accesses are in bounds). -/
def rdZero : Reading := ⟨0, 0, 0, 0, 0, 0⟩

/-- One inner pass of v3.ino's `sortReadingsByConfidence` performing `k`
adjacent compare-swaps from the left: `if (arr[j].confidence <
arr[j+1].confidence) swap(arr[j], arr[j+1])` for `j = 0 .. k-1`. -/
def passGo : List Reading → ℕ → List Reading
  | l, 0 => l
  | [], _ + 1 => []
  | [a], _ + 1 => [a]
  | a :: b :: t, k + 1 =>
      if a.confidence < b.confidence then b :: passGo (a :: t) k
      else a :: passGo (b :: t) k

/-- The outer loop of `sortReadingsByConfidence`: with `r` iterations left,
the next pass performs `r` comparisons (outer iteration `i` of the C code
performs `n - i - 1` comparisons on a buffer of `n` live entries). -/
def outerGo : List Reading → ℕ → List Reading
  | l, 0 => l
  | l, r + 1 => outerGo (passGo l (r + 1)) r

/-- v3.ino's bubble sort on the first `readingCount` entries, descending by
confidence (v3.ino lines 51-61); the list models exactly that live prefix. -/
def sortReadingsByConfidence (l : List Reading) : List Reading :=
  outerGo l (l.length - 1)

/-- All pairs whose later index is `≥ m` are already in descending
confidence order. `SSfrom l 1` says `l` is sorted descending. -/
def SSfrom (l : List Reading) (m : ℕ) : Prop :=
  ∀ i j : ℕ, i < j → j < l.length → m ≤ j →
    (l.getD j rdZero).confidence ≤ (l.getD i rdZero).confidence

/-- The confidence values of a list of v3 readings, as a multiset. -/
def rdConfs (rs : List Reading) : Multiset ℤ := (rs.map fun r => r.confidence : List ℤ)

/-- `numToAverage = min(5, readingCount)` top entries of the sorted buffer
that v3.ino averages at report time (v3.ino line 143). -/
def v3topOf (l : List Reading) : List Reading :=
  (sortReadingsByConfidence l).take (min 5 l.length)

/-! ## Full loop-step state machines -/

/-- v3.ino's store step (lines 125-133): a reading is appended to the live
prefix only when its confidence exceeds 50 and fewer than `MAX_READINGS =
100` readings are stored. -/
def v3store (l : List Reading) (body : Reading) : List Reading :=
  if 50 < body.confidence ∧ l.length < 100 then l ++ [body] else l

/-- The quantities printed by one v3.ino report (lines 143-178): `float`
averages for heart rate, oxygen and confidence, `long` (integer-division)
averages for the two LED channels, and the total count. -/
structure V3Report where
  avgHeartRate : ℚ
  avgOxygen : ℚ
  avgConfidence : ℚ
  avgIrLed : ℤ
  avgRedLed : ℤ
  total : ℕ
deriving DecidableEq, Repr

/-- The report v3.ino computes from the stored window: sort by confidence,
average the first `numToAverage = min(5, readingCount)` entries;
the LED sums live in `long` variables, so `avgIrLed /= numToAverage` is C++
integer division (truncation toward zero), modelled by `Int.tdiv`. -/
def v3reportOf (l : List Reading) : V3Report :=
  { avgHeartRate := ((v3topOf l).map fun r => (r.heartRate : ℚ)).sum / ((min 5 l.length : ℕ) : ℚ)
    avgOxygen := ((v3topOf l).map fun r => (r.oxygen : ℚ)).sum / ((min 5 l.length : ℕ) : ℚ)
    avgConfidence := ((v3topOf l).map fun r => (r.confidence : ℚ)).sum / ((min 5 l.length : ℕ) : ℚ)
    avgIrLed := Int.tdiv ((v3topOf l).map fun r => r.irLed).sum ((min 5 l.length : ℕ) : ℤ)
    avgRedLed := Int.tdiv ((v3topOf l).map fun r => r.redLed).sum ((min 5 l.length : ℕ) : ℤ)
    total := l.length }

/-- v3.ino loop state: the live prefix `readings[0..readingCount)` and
`lastDisplayTime`. -/
structure V3State where
  readings : List Reading
  lastDisplayTime : ℕ
deriving DecidableEq, Repr

/-- One full v3.ino loop iteration on one sensor reading taken at time `now`
(the single `millis()` read of the iteration): store if eligible, then
report-and-reset when at least one second has passed and at least one
reading is stored. -/
def v3step (s : V3State) (body : Reading) (now : ℕ) : V3State × Option V3Report :=
  if 1000 ≤ wsub now s.lastDisplayTime ∧ 0 < (v3store s.readings body).length then
    (⟨[], now % 4294967296⟩, some (v3reportOf (v3store s.readings body)))
  else (⟨v3store s.readings body, s.lastDisplayTime⟩, none)

/-- The `bioData` fields used by v2.ino (which spells the rate field
`heartrate`). -/
structure BioData where
  heartrate : ℤ
  confidence : ℤ
  oxygen : ℤ
  irLed : ℤ
  redLed : ℤ
  status : ℤ
deriving DecidableEq, Repr

/-- v2.ino loop state: running sums (`float`), the count of accepted
readings, and `lastDisplayTime`. -/
structure V2State where
  validReadingsCount : ℕ
  heartRateSum : ℚ
  oxygenSum : ℚ
  irLedSum : ℚ
  redLedSum : ℚ
  lastDisplayTime : ℕ
deriving DecidableEq, Repr

/-- v2.ino's accept step (lines 151-158): a reading is accumulated only when
`confidence > 50 && heartrate > 0 && oxygen > 0`. -/
def v2accept (s : V2State) (b : BioData) : V2State :=
  if 50 < b.confidence ∧ 0 < b.heartrate ∧ 0 < b.oxygen then
    { s with
      heartRateSum := s.heartRateSum + (b.heartrate : ℚ)
      oxygenSum := s.oxygenSum + (b.oxygen : ℚ)
      irLedSum := s.irLedSum + (b.irLed : ℚ)
      redLedSum := s.redLedSum + (b.redLed : ℚ)
      validReadingsCount := s.validReadingsCount + 1 }
  else s

/-- What one v2.ino report prints: either the four averages with the count,
or the no-valid-readings message. -/
inductive V2Report where
  | avgs (count : ℕ) (hr ox ir rd : ℚ)
  | noValid
deriving DecidableEq, Repr

/-- The report printed by v2.ino at a report instant from the accumulated
state (lines 184-209): the four averages with the count when at least one
valid reading accumulated, else the no-valid-readings message. -/
def v2report (s1 : V2State) : V2Report :=
  if 0 < s1.validReadingsCount then
    V2Report.avgs s1.validReadingsCount
      (s1.heartRateSum / (s1.validReadingsCount : ℚ))
      (s1.oxygenSum / (s1.validReadingsCount : ℚ))
      (s1.irLedSum / (s1.validReadingsCount : ℚ))
      (s1.redLedSum / (s1.validReadingsCount : ℚ))
  else V2Report.noValid

/-- One full v2.ino loop iteration on one sensor reading taken at time `now`:
accept if eligible, then report-and-reset when a second has passed OR five
valid readings have accumulated (v2.ino line 182). -/
def v2step (s : V2State) (b : BioData) (now : ℕ) : V2State × Option V2Report :=
  if 1000 ≤ wsub now s.lastDisplayTime ∨ 5 ≤ (v2accept s b).validReadingsCount then
    (⟨0, 0, 0, 0, 0, now % 4294967296⟩, some (v2report (v2accept s b)))
  else (v2accept s b, none)

/-- Number of populated (`confidence > 0`) slots of `topReadings`
(`validReadingsCount` of v4.ino's report block). -/
def popCount (b : List BD4) : ℕ :=
  (b.filter fun x => decide (0 < x.confidence)).length

/-- `totalHeartRate` summed over populated slots (v4.ino lines 153-160). -/
def v4totHeartRate (b : List BD4) : ℚ :=
  ((b.filter fun x => decide (0 < x.confidence)).map fun x => (x.heartRate : ℚ)).sum

/-- `totalOxygen` summed over populated slots. -/
def v4totOxygen (b : List BD4) : ℚ :=
  ((b.filter fun x => decide (0 < x.confidence)).map fun x => (x.oxygen : ℚ)).sum

/-- What one v4.ino report prints: the two averages (only when all 5 slots
are populated, divided by `NUM_READINGS = 5`), otherwise the
collecting-progress message with the populated count. -/
inductive V4Report where
  | avg (hr ox : ℚ)
  | progress (n : ℕ)
deriving DecidableEq, Repr

/-- The report v4.ino prints at a report instant from buffer `b`. -/
def v4reportOut (b : List BD4) : V4Report :=
  if popCount b = 5 then
    V4Report.avg (v4totHeartRate b / 5) (v4totOxygen b / 5)
  else V4Report.progress (popCount b)

/-- v4.ino loop state: `topReadings` and `lastReportTime`. -/
structure V4State where
  top : List BD4
  lastReportTime : ℕ
deriving DecidableEq, Repr

/-- One full v4.ino loop iteration: insert into `topReadings`, then when a
second has passed report and reset.  `tCheck` and `tStore` are the two
successive `millis()` reads at lines 145 and 146. -/
def v4step (s : V4State) (body : BD4) (tCheck tStore : ℕ) : V4State × Option V4Report :=
  if 1000 ≤ wsub tCheck s.lastReportTime then
    (⟨emptyBuf, tStore % 4294967296⟩, some (v4reportOut (v4insert s.top body)))
  else (⟨v4insert s.top body, s.lastReportTime⟩, none)

/-! ## setup() diagnostics (identical in v2.ino, v3.ino and v4.ino) -/

/-- One item written to the serial console: a fixed message or a number. -/
inductive SerialItem where
  | msg (s : String)
  | num (n : ℤ)
deriving DecidableEq, Repr

/-- The serial output of the common configuration part of `setup` (v2.ino
lines 70-116, v3.ino lines 67-112, v4.ino lines 56-101, identical code),
given the return codes of `begin`, `configSensorBpm`, `setPulseWidth` and
`setSampleRate` and the values read back by `readPulseWidth` and
`readSampleRate`. -/
def setupDiagnostics (rBegin rConfig rPW rSR pwVal srVal : ℤ) : List SerialItem :=
  (if rBegin = 0 then [SerialItem.msg "Sensor started!"] else []) ++
  [SerialItem.msg "Configuring Sensor...."] ++
  (if rConfig = 0 then [SerialItem.msg "Sensor configured."]
   else [SerialItem.msg "Error configuring sensor.", SerialItem.msg "Error: ",
     SerialItem.num rConfig]) ++
  (if rPW = 0 then [SerialItem.msg "Pulse Width Set."]
   else [SerialItem.msg "Could not set Pulse Width.", SerialItem.msg "Error: ",
     SerialItem.num rPW]) ++
  [SerialItem.msg "Pulse Width: ", SerialItem.num pwVal] ++
  (if rSR = 0 then [SerialItem.msg "Sample Rate Set."]
   else [SerialItem.msg "Could not set Sample Rate!", SerialItem.msg "Error: ",
     SerialItem.num rSR]) ++
  [SerialItem.msg "Sample rate is set to: ", SerialItem.num srVal]

/-! ## The sensor driver as a stream of readings -/

/-- The vendor driver: an infinite stream of reading records and a cursor.
`readSensorBpm` returns the record under the cursor and advances it by one,
so the cursor counts how many readings have been consumed. -/
structure Driver (α : Type) where
  stream : ℕ → α
  pos : ℕ

/-- `bioHub.readSensorBpm()`: consume exactly one reading record. -/
def readSensorBpm {α : Type} (d : Driver α) : α × Driver α :=
  (d.stream d.pos, ⟨d.stream, d.pos + 1⟩)

/-- One v2.ino loop iteration against the driver: read one record, then run
the loop body on that single record. -/
def v2iter (d : Driver BioData) (now : ℕ) (s : V2State) :
    Driver BioData × (V2State × Option V2Report) :=
  let rd := readSensorBpm d
  (rd.2, v2step s rd.1 now)

/-- One v3.ino loop iteration against the driver. -/
def v3iter (d : Driver Reading) (now : ℕ) (s : V3State) :
    Driver Reading × (V3State × Option V3Report) :=
  let rd := readSensorBpm d
  (rd.2, v3step s rd.1 now)

/-- One v4.ino loop iteration against the driver. -/
def v4iter (d : Driver BD4) (tCheck tStore : ℕ) (s : V4State) :
    Driver BD4 × (V4State × Option V4Report) :=
  let rd := readSensorBpm d
  (rd.2, v4step s rd.1 tCheck tStore)

/-- `n` v2.ino loop iterations; `ts i` is the `millis()` value of the
iteration that consumes record `i`. -/
def v2run (ts : ℕ → ℕ) : ℕ → Driver BioData → V2State → Driver BioData × V2State
  | 0, d, s => (d, s)
  | n + 1, d, s => v2run ts n (v2iter d (ts d.pos) s).1 (v2iter d (ts d.pos) s).2.1

/-- `n` v3.ino loop iterations. -/
def v3run (ts : ℕ → ℕ) : ℕ → Driver Reading → V3State → Driver Reading × V3State
  | 0, d, s => (d, s)
  | n + 1, d, s => v3run ts n (v3iter d (ts d.pos) s).1 (v3iter d (ts d.pos) s).2.1

/-- `n` v4.ino loop iterations; `ts` and `ts'` give the two `millis()` reads
of the iteration consuming record `i`. -/
def v4run (ts ts' : ℕ → ℕ) : ℕ → Driver BD4 → V4State → Driver BD4 × V4State
  | 0, d, s => (d, s)
  | n + 1, d, s => v4run ts ts' n (v4iter d (ts d.pos) (ts' d.pos) s).1 (v4iter d (ts d.pos) (ts' d.pos) s).2.1

/-- The readings of a v3 window stored into `readings[]` (line 125-133 fold
over the window). -/
def v3storedOf (rs : List Reading) : List Reading := rs.foldl v3store []

/-- The readings of a window that pass the confidence filter (what "seen in
the current window above the threshold" denotes). -/
def v3seenAccepted (rs : List Reading) : List Reading :=
  rs.filter fun r => decide (50 < r.confidence)

/-- A window reading with confidence 60. -/
def rdC60 : Reading := ⟨80, 60, 95, 1, 1, 0⟩

/-- A window reading with confidence 70. -/
def rdC70 : Reading := ⟨80, 70, 95, 1, 1, 0⟩

/-- The 101-reading window that refutes C1 for v3.ino: one hundred accepted
readings of confidence 60 followed by one of confidence 70. -/
def cexWindow : List Reading := List.replicate 100 rdC60 ++ [rdC70]

/-- The v2.ino loop state at the start of a collection window:
zero count, zero sums, timer at `t0`. -/
def v2fresh (t0 : ℕ) : V2State := ⟨0, 0, 0, 0, 0, t0⟩

/-- The readings of a v2 window that pass the acceptance test. -/
def v2acceptedList (rs : List BioData) : List BioData :=
  rs.filter fun b => decide (50 < b.confidence ∧ 0 < b.heartrate ∧ 0 < b.oxygen)

/-! ## Theorems -/

theorem minIdxGo_spec (b : List BD4) (is : List ℕ) (best : ℕ) :
    (minIdxGo b is best = best ∨ minIdxGo b is best ∈ is) ∧
    (b.getD (minIdxGo b is best) zeroSlot).confidence ≤ (b.getD best zeroSlot).confidence ∧
    ∀ i ∈ is, (b.getD (minIdxGo b is best) zeroSlot).confidence ≤ (b.getD i zeroSlot).confidence := by
  induction is generalizing best with
  | nil => exact ⟨Or.inl rfl, le_refl _, by simp⟩
  | cons i is ih =>
    by_cases h : (b.getD i zeroSlot).confidence < (b.getD best zeroSlot).confidence
    · have h' := ih i
      refine ⟨?_, ?_, ?_⟩
      · simp only [minIdxGo, if_pos h]
        rcases h'.1 with h1 | h1
        · exact Or.inr (by simp [h1])
        · exact Or.inr (by simp [h1])
      · simp only [minIdxGo, if_pos h]
        exact le_trans h'.2.1 (le_of_lt h)
      · intro j hj
        simp only [minIdxGo, if_pos h]
        rcases List.mem_cons.mp hj with rfl | hj'
        · exact h'.2.1
        · exact h'.2.2 j hj'
    · have h' := ih best
      refine ⟨?_, ?_, ?_⟩
      · simp only [minIdxGo, if_neg h]
        rcases h'.1 with h1 | h1
        · exact Or.inl h1
        · exact Or.inr (by simp [h1])
      · simp only [minIdxGo, if_neg h]
        exact h'.2.1
      · intro j hj
        simp only [minIdxGo, if_neg h]
        rcases List.mem_cons.mp hj with rfl | hj'
        · exact le_trans h'.2.1 (not_lt.mp h)
        · exact h'.2.2 j hj'

theorem minIdx_lt_five (b : List BD4) : minIdx b < 5 := by
  unfold minIdx
  rcases (minIdxGo_spec b [1, 2, 3, 4] 0).1 with h | h
  · omega
  · simp only [List.mem_cons, List.not_mem_nil, or_false] at h
    omega

theorem minIdx_is_min (b : List BD4) :
    ∀ i < 5, (b.getD (minIdx b) zeroSlot).confidence ≤ (b.getD i zeroSlot).confidence := by
  intro i hi
  have h := minIdxGo_spec b [1, 2, 3, 4] 0
  interval_cases i
  · exact h.2.1
  · exact h.2.2 1 (by simp)
  · exact h.2.2 2 (by simp)
  · exact h.2.2 3 (by simp)
  · exact h.2.2 4 (by simp)

/-- The stored reading at the minimum-confidence index is a buffer member. -/
theorem minSlot_mem (b : List BD4) (hb : b.length = 5) : b.getD (minIdx b) zeroSlot ∈ b := by
  have hm : minIdx b < b.length := by rw [hb]; exact minIdx_lt_five b
  rw [List.getD_eq_getElem _ _ hm]
  exact List.getElem_mem hm

/-- Replacing slot `m` exchanges that slot's confidence for the new one in the
multiset of slot confidences. -/
theorem slotConfs_set (l : List BD4) (m : ℕ) (r : BD4) (h : m < l.length) :
    slotConfs (l.set m r) =
      r.confidence ::ₘ (slotConfs l).erase ((l.getD m zeroSlot).confidence) := by
  induction l generalizing m with
  | nil => simp at h
  | cons x t ih =>
    cases m with
    | zero =>
      simp only [List.set_cons_zero, List.getD_cons_zero, slotConfs, List.map_cons,
        ← Multiset.cons_coe, Multiset.erase_cons_head]
    | succ m =>
      have ht : m < t.length := by simpa using h
      have hv : (t.getD m zeroSlot).confidence ∈ slotConfs t := by
        have : t.getD m zeroSlot ∈ t := by
          rw [List.getD_eq_getElem _ _ ht]; exact List.getElem_mem ht
        exact Multiset.mem_coe.mpr (List.mem_map_of_mem _ this)
      simp only [List.set_cons_succ, List.getD_cons_succ, slotConfs, List.map_cons,
        ← Multiset.cons_coe]
      by_cases hxv : x.confidence = (t.getD m zeroSlot).confidence
      · rw [hxv, Multiset.erase_cons_head]
        have hrec := ih m ht
        simp only [slotConfs] at hrec hv
        rw [hrec, Multiset.cons_swap, Multiset.cons_erase hv]
      · rw [Multiset.erase_cons_tail _ hxv]
        have hrec := ih m ht
        simp only [slotConfs] at hrec
        rw [hrec, Multiset.cons_swap]

/-- Erasing a non-positive value does not change the positive-filter. -/
theorem filter_erase_nonpos {s : Multiset ℤ} {a : ℤ} (h : ¬ 0 < a) :
    (s.erase a).filter (fun c => 0 < c) = s.filter (fun c => 0 < c) := by
  by_cases hm : a ∈ s
  · conv_rhs => rw [← Multiset.cons_erase hm]
    rw [Multiset.filter_cons_of_neg _ h]
  · rw [Multiset.erase_of_not_mem hm]

/-- Erasing a positive member commutes with the positive-filter. -/
theorem filter_erase_pos {s : Multiset ℤ} {a : ℤ} (hm : a ∈ s) (h : 0 < a) :
    (s.erase a).filter (fun c => 0 < c) = (s.filter (fun c => 0 < c)).erase a := by
  conv_rhs => rw [← Multiset.cons_erase hm]
  rw [Multiset.filter_cons_of_pos _ h, Multiset.erase_cons_head]

theorem v4insert_good (b : List BD4) (r : BD4) (hg : GoodBuf b) :
    GoodBuf (v4insert b r) := by
  unfold v4insert
  split
  · split
    · refine ⟨by simp [hg.1], ?_⟩
      intro x hx
      rcases List.mem_or_eq_of_mem_set hx with hx' | rfl
      · exact hg.2 x hx'
      · right; omega
    · exact hg
  · exact hg

theorem mem_slotConfs_min (b : List BD4) (hb : b.length = 5) :
    ∀ c ∈ slotConfs b, (b.getD (minIdx b) zeroSlot).confidence ≤ c := by
  intro c hc
  simp only [slotConfs, Multiset.mem_coe, List.mem_map] at hc
  obtain ⟨x, hx, rfl⟩ := hc
  obtain ⟨i, hi, rfl⟩ := List.mem_iff_getElem.mp hx
  have hi5 : i < 5 := by omega
  have := minIdx_is_min b i hi5
  rwa [List.getD_eq_getElem _ _ hi] at this

theorem slotConfs_card (b : List BD4) : Multiset.card (slotConfs b) = b.length := by
  simp [slotConfs]

/-- Main step invariant: one v4.ino loop-body update keeps the populated
slots a top-5 selection of the accepted confidences seen in the window. -/
theorem v4insert_topsel (b : List BD4) (r : BD4) (cs : Multiset ℤ) (hg : GoodBuf b)
    (h : IsTopSelection cs (popConfs b)) :
    IsTopSelection (if 50 < r.confidence then r.confidence ::ₘ cs else cs)
      (popConfs (v4insert b r)) := by
  obtain ⟨rest, hsum, hcard, hord⟩ := h
  by_cases hc : 50 < r.confidence
  · rw [if_pos hc]
    have hm5 : minIdx b < 5 := minIdx_lt_five b
    have hmlen : minIdx b < b.length := by rw [hg.1]; exact hm5
    have hslot_mem : b.getD (minIdx b) zeroSlot ∈ b := minSlot_mem b hg.1
    have hmc_mem : (b.getD (minIdx b) zeroSlot).confidence ∈ slotConfs b := by
      simp only [slotConfs, Multiset.mem_coe, List.mem_map]
      exact ⟨_, hslot_mem, rfl⟩
    have hmc_min := mem_slotConfs_min b hg.1
    have hmc_cases := hg.2 _ hslot_mem
    by_cases hrep : (b.getD (minIdx b) zeroSlot).confidence < r.confidence
    · have hins : v4insert b r = b.set (minIdx b) r := by
        unfold v4insert; rw [if_pos hc, if_pos hrep]
      have hset := slotConfs_set b (minIdx b) r hmlen
      rcases hmc_cases with hmc0 | hmc51
      · -- an empty slot is overwritten
        have hpop' : popConfs (v4insert b r) = r.confidence ::ₘ popConfs b := by
          rw [hins]
          unfold popConfs
          rw [hset, Multiset.filter_cons_of_pos _ (by omega : (0:ℤ) < r.confidence), hmc0,
            filter_erase_nonpos (by omega)]
        have h0mem : (0:ℤ) ∈ slotConfs b := hmc0 ▸ hmc_mem
        have hlt : Multiset.card (popConfs b) < 5 := by
          have hle : popConfs b ≤ slotConfs b := Multiset.filter_le _ _
          have hne : popConfs b ≠ slotConfs b := by
            intro he
            have := Multiset.filter_eq_self.mp he 0 h0mem
            omega
          have hlt' : popConfs b < slotConfs b := lt_of_le_of_ne hle hne
          have := Multiset.card_lt_card hlt'
          rw [slotConfs_card, hg.1] at this
          exact this
        have hcs_card : Multiset.card cs ≤ 4 := by
          by_cases h5 : 5 ≤ Multiset.card cs
          · rw [min_eq_left h5] at hcard; omega
          · omega
        have hrest0 : rest = 0 := by
          have hc1 : Multiset.card cs = Multiset.card (popConfs b) + Multiset.card rest := by
            rw [hsum]; simp
          rw [min_eq_right (by omega)] at hcard
          exact Multiset.card_eq_zero.mp (by omega)
        refine ⟨0, ?_, ?_, ?_⟩
        · rw [hpop', hsum, hrest0]
          simp [Multiset.cons_add]
        · have hpc : Multiset.card (popConfs b) = Multiset.card cs := by
            rw [hsum, hrest0, add_zero]
          rw [hpop']
          simp only [Multiset.card_cons, hpc]
          rw [min_eq_right (by omega)]
        · intro x hx
          simp at hx
      · -- all five slots populated: the true minimum is evicted
        have hall : ∀ c ∈ slotConfs b, (0:ℤ) < c := by
          intro c hcm
          have := hmc_min c hcm
          omega
        have hpop_eq : popConfs b = slotConfs b := Multiset.filter_eq_self.mpr hall
        have hcard5 : Multiset.card (popConfs b) = 5 := by
          rw [hpop_eq, slotConfs_card, hg.1]
        have hcs5 : 5 ≤ Multiset.card cs := by
          rw [hcard5] at hcard
          by_cases h5 : 5 ≤ Multiset.card cs
          · exact h5
          · rw [min_eq_right (by omega)] at hcard; omega
        have hmc_sel : (b.getD (minIdx b) zeroSlot).confidence ∈ popConfs b :=
          hpop_eq ▸ hmc_mem
        have hpop' : popConfs (v4insert b r) =
            r.confidence ::ₘ (popConfs b).erase (b.getD (minIdx b) zeroSlot).confidence := by
          rw [hins]
          unfold popConfs
          rw [hset, Multiset.filter_cons_of_pos _ (by omega : (0:ℤ) < r.confidence),
            filter_erase_pos hmc_mem (by omega)]
        refine ⟨(b.getD (minIdx b) zeroSlot).confidence ::ₘ rest, ?_, ?_, ?_⟩
        · rw [hpop', hsum]
          conv_lhs => rw [← Multiset.cons_erase hmc_sel]
          simp only [Multiset.cons_add, Multiset.add_cons]
          rw [Multiset.cons_swap]
        · rw [hpop']
          simp only [Multiset.card_cons]
          rw [Multiset.card_erase_of_mem hmc_sel, hcard5]
          show 4 + 1 = 5 ⊓ (Multiset.card cs + 1)
          omega
        · intro x hx y hy
          rw [hpop'] at hy
          rcases Multiset.mem_cons.mp hx with rfl | hx'
          · rcases Multiset.mem_cons.mp hy with rfl | hy'
            · exact le_of_lt hrep
            · exact hmc_min y (hpop_eq ▸ Multiset.mem_of_mem_erase hy')
          · rcases Multiset.mem_cons.mp hy with rfl | hy'
            · exact le_trans (hord x hx' _ hmc_sel) (le_of_lt hrep)
            · exact hord x hx' y (Multiset.mem_of_mem_erase hy')
    · -- the new reading does not beat the buffer minimum: no change
      have hins : v4insert b r = b := by
        unfold v4insert; rw [if_pos hc, if_neg hrep]
      have hmc51 : (51:ℤ) ≤ (b.getD (minIdx b) zeroSlot).confidence := by
        rcases hmc_cases with h0 | h51
        · omega
        · exact h51
      have hall : ∀ c ∈ slotConfs b, (0:ℤ) < c := by
        intro c hcm
        have := hmc_min c hcm
        omega
      have hpop_eq : popConfs b = slotConfs b := Multiset.filter_eq_self.mpr hall
      have hcard5 : Multiset.card (popConfs b) = 5 := by
        rw [hpop_eq, slotConfs_card, hg.1]
      have hcs5 : 5 ≤ Multiset.card cs := by
        rw [hcard5] at hcard
        by_cases h5 : 5 ≤ Multiset.card cs
        · exact h5
        · rw [min_eq_right (by omega)] at hcard; omega
      refine ⟨r.confidence ::ₘ rest, ?_, ?_, ?_⟩
      · rw [hins, hsum]
        simp only [Multiset.cons_add, Multiset.add_cons]
      · rw [hins, hcard5]
        rw [min_eq_left (by simp; omega)]
      · intro x hx y hy
        rw [hins] at hy
        rcases Multiset.mem_cons.mp hx with rfl | hx'
        · exact le_trans (not_lt.mp hrep) (hmc_min y (hpop_eq ▸ hy))
        · exact hord x hx' y hy
  · rw [if_neg hc]
    have hins : v4insert b r = b := by unfold v4insert; rw [if_neg hc]
    rw [hins]
    exact ⟨rest, hsum, hcard, hord⟩

theorem v4fold_inv (rs : List BD4) :
    ∀ b cs, GoodBuf b → IsTopSelection cs (popConfs b) →
      GoodBuf (rs.foldl v4insert b) ∧
      IsTopSelection (cs + confsOf (v4accepted rs)) (popConfs (rs.foldl v4insert b)) := by
  induction rs with
  | nil =>
    intro b cs hg h
    simpa [v4accepted, confsOf] using And.intro hg h
  | cons r rs ih =>
    intro b cs hg h
    have hg' := v4insert_good b r hg
    have h' := v4insert_topsel b r cs hg h
    have step := ih (v4insert b r) _ hg' h'
    refine ⟨by simpa using step.1, ?_⟩
    have harr : cs + confsOf (v4accepted (r :: rs)) =
        (if 50 < r.confidence then r.confidence ::ₘ cs else cs) + confsOf (v4accepted rs) := by
      by_cases hc : 50 < r.confidence
      · simp only [v4accepted, confsOf, List.filter_cons, decide_eq_true_eq, hc, if_pos,
          List.map_cons, ← Multiset.cons_coe, Multiset.cons_add, Multiset.add_cons]
      · simp only [v4accepted, confsOf, List.filter_cons, decide_eq_true_eq, hc, if_neg,
          not_false_iff]
    rw [harr]
    simpa using step.2

theorem passGo_zero (l : List Reading) : passGo l 0 = l := by
  match l with
  | [] => rfl
  | [a] => rfl
  | a :: b :: t => rfl

theorem passGo_nil (k : ℕ) : passGo [] k = [] := by
  match k with
  | 0 => rfl
  | k + 1 => rfl

theorem passGo_one (a : Reading) (k : ℕ) : passGo [a] k = [a] := by
  match k with
  | 0 => rfl
  | k + 1 => rfl

theorem passGo_cons_cons (a b : Reading) (t : List Reading) (k : ℕ) :
    passGo (a :: b :: t) (k + 1) =
      if a.confidence < b.confidence then b :: passGo (a :: t) k
      else a :: passGo (b :: t) k := rfl

theorem passGo_perm (k : ℕ) : ∀ l : List Reading, List.Perm (passGo l k) l := by
  induction k with
  | zero => intro l; rw [passGo_zero]
  | succ k ih =>
    intro l
    match l with
    | [] => rw [passGo_nil]
    | [a] => rw [passGo_one]
    | a :: b :: t =>
      rw [passGo_cons_cons]
      split
      · exact ((ih (a :: t)).cons b).trans (List.Perm.swap a b t)
      · exact (ih (b :: t)).cons a

theorem passGo_length (k : ℕ) (l : List Reading) : (passGo l k).length = l.length :=
  (passGo_perm k l).length_eq

theorem passGo_drop (k : ℕ) :
    ∀ l : List Reading, (passGo l k).drop (k + 1) = l.drop (k + 1) := by
  induction k with
  | zero => intro l; rw [passGo_zero]
  | succ k ih =>
    intro l
    match l with
    | [] => rw [passGo_nil]
    | [a] => rw [passGo_one]
    | a :: b :: t =>
      rw [passGo_cons_cons]
      split
      · show (b :: passGo (a :: t) k).drop (k + 2) = (a :: b :: t).drop (k + 2)
        rw [List.drop_succ_cons, ih (a :: t)]
        rfl
      · show (a :: passGo (b :: t) k).drop (k + 2) = (a :: b :: t).drop (k + 2)
        rw [List.drop_succ_cons, ih (b :: t)]
        rfl

theorem passGo_take_mem (k : ℕ) :
    ∀ (l : List Reading) (x : Reading),
      x ∈ (passGo l k).take (k + 1) → x ∈ l.take (k + 1) := by
  induction k with
  | zero => intro l x hx; rwa [passGo_zero] at hx
  | succ k ih =>
    intro l x hx
    match l with
    | [] => rwa [passGo_nil] at hx
    | [a] => rwa [passGo_one] at hx
    | a :: b :: t =>
      rw [passGo_cons_cons] at hx
      simp only [List.take_succ_cons, List.mem_cons]
      by_cases hab : a.confidence < b.confidence
      · rw [if_pos hab, List.take_succ_cons, List.mem_cons] at hx
        rcases hx with rfl | hx
        · right; left; rfl
        · have := ih (a :: t) x hx
          rw [List.take_succ_cons, List.mem_cons] at this
          rcases this with rfl | hmem
          · left; rfl
          · right; right; exact hmem
      · rw [if_neg hab, List.take_succ_cons, List.mem_cons] at hx
        rcases hx with rfl | hx
        · left; rfl
        · have := ih (b :: t) x hx
          rw [List.take_succ_cons, List.mem_cons] at this
          rcases this with rfl | hmem
          · right; left; rfl
          · right; right; exact hmem

theorem passGo_min (k : ℕ) :
    ∀ l : List Reading, k < l.length →
      ∀ x ∈ l.take (k + 1),
        ((passGo l k).getD k rdZero).confidence ≤ x.confidence := by
  induction k with
  | zero =>
    intro l hk x hx
    rw [passGo_zero]
    match l with
    | [] => simp at hk
    | a :: t =>
      simp only [List.take_succ_cons, List.take_zero, List.mem_singleton] at hx
      subst hx
      rfl
  | succ k ih =>
    intro l hk x hx
    match l with
    | [] => simp at hk
    | [a] => simp at hk
    | a :: b :: t =>
      rw [passGo_cons_cons]
      rw [List.take_succ_cons, List.mem_cons, List.take_succ_cons, List.mem_cons] at hx
      by_cases hab : a.confidence < b.confidence
      · rw [if_pos hab, List.getD_cons_succ]
        have hk' : k < (a :: t).length := by
          simp only [List.length_cons] at hk ⊢
          omega
        have hmin := ih (a :: t) hk'
        rcases hx with rfl | rfl | hx
        · exact hmin x (by simp)
        · exact le_trans (hmin a (by simp)) (le_of_lt hab)
        · refine hmin x ?_
          rw [List.take_succ_cons, List.mem_cons]
          right; exact hx
      · rw [if_neg hab, List.getD_cons_succ]
        have hk' : k < (b :: t).length := by
          simp only [List.length_cons] at hk ⊢
          omega
        have hmin := ih (b :: t) hk'
        rcases hx with rfl | rfl | hx
        · exact le_trans (hmin b (by simp)) (not_lt.mp hab)
        · exact hmin x (by simp)
        · refine hmin x ?_
          rw [List.take_succ_cons, List.mem_cons]
          right; exact hx

theorem getD_of_drop_eq {α : Type} {l l' : List α} {n j : ℕ} (d : α)
    (h : l.drop n = l'.drop n) (hj : n ≤ j) : l.getD j d = l'.getD j d := by
  rw [List.getD_eq_getElem?_getD, List.getD_eq_getElem?_getD]
  have hl : l[j]? = (l.drop n)[j - n]? := by
    rw [List.getElem?_drop]
    congr 1
    omega
  have hl' : l'[j]? = (l'.drop n)[j - n]? := by
    rw [List.getElem?_drop]
    congr 1
    omega
  rw [hl, hl', h]

/-- A member of the first `m` entries of a list is an entry `l.getD i` with
`i < m`. -/
theorem mem_take_getD {l : List Reading} {m : ℕ} {x : Reading}
    (hx : x ∈ l.take m) : ∃ i, i < m ∧ i < l.length ∧ l.getD i rdZero = x := by
  obtain ⟨i, hi, hget⟩ := List.mem_iff_getElem.mp hx
  have hlen : i < l.length := by
    have := List.length_take m l
    omega
  refine ⟨i, ?_, hlen, ?_⟩
  · have := List.length_take m l
    omega
  · rw [List.getD_eq_getElem _ _ hlen]
    exact (List.getElem_take l (h := hi)).symm.trans hget

/-- An in-bounds entry of the first `m` elements is a member of `l.take m`. -/
theorem getD_mem_take {l : List Reading} {i m : ℕ} (hi : i < m) (hil : i < l.length) :
    l.getD i rdZero ∈ l.take m := by
  have hlen : i < (l.take m).length := by
    rw [List.length_take]
    omega
  rw [List.getD_eq_getElem _ _ hil]
  have heq : l[i] = (l.take m)[i] := (List.getElem_take l (h := hlen)).symm
  rw [heq]
  exact List.getElem_mem hlen

/-- One prefix-limited pass extends the sorted-suffix region by one slot. -/
theorem passGo_SS (l : List Reading) (k : ℕ) (hk : k < l.length)
    (h : SSfrom l (k + 1)) : SSfrom (passGo l k) k := by
  intro i j hij hjlen hkj
  have hlen : (passGo l k).length = l.length := passGo_length k l
  have hdrop := passGo_drop k l
  by_cases hj : k + 1 ≤ j
  · -- position j is beyond the touched prefix
    have hjget : (passGo l k).getD j rdZero = l.getD j rdZero :=
      getD_of_drop_eq rdZero hdrop hj
    rw [hjget]
    by_cases hi : k + 1 ≤ i
    · have higet : (passGo l k).getD i rdZero = l.getD i rdZero :=
        getD_of_drop_eq rdZero hdrop hi
      rw [higet]
      exact h i j hij (by omega) hj
    · -- position i is inside the permuted prefix
      have himem : (passGo l k).getD i rdZero ∈ (passGo l k).take (k + 1) :=
        getD_mem_take (by omega) (by omega)
      have himem' := passGo_take_mem k l _ himem
      obtain ⟨i', hi'm, hi'l, hi'eq⟩ := mem_take_getD himem'
      rw [← hi'eq]
      exact h i' j (by omega) (by omega) hj
  · -- j = k: the pass has bubbled a minimum of the prefix there
    have hjk : j = k := by omega
    subst hjk
    have himem : (passGo l j).getD i rdZero ∈ (passGo l j).take (j + 1) :=
      getD_mem_take (by omega) (by omega)
    have himem' := passGo_take_mem j l _ himem
    exact passGo_min j l hk _ himem'

theorem outerGo_perm : ∀ (r : ℕ) (l : List Reading), List.Perm (outerGo l r) l := by
  intro r
  induction r with
  | zero => intro l; rfl
  | succ r ih =>
    intro l
    show List.Perm (outerGo (passGo l (r + 1)) r) l
    exact (ih (passGo l (r + 1))).trans (passGo_perm (r + 1) l)

theorem outerGo_SS : ∀ (r : ℕ) (l : List Reading), r < l.length →
    SSfrom l (r + 1) → SSfrom (outerGo l r) 1 := by
  intro r
  induction r with
  | zero =>
    intro l _ h
    exact h
  | succ r ih =>
    intro l hr h
    show SSfrom (outerGo (passGo l (r + 1)) r) 1
    have hSS : SSfrom (passGo l (r + 1)) (r + 1) := passGo_SS l (r + 1) hr h
    have hlen : (passGo l (r + 1)).length = l.length := passGo_length (r + 1) l
    exact ih (passGo l (r + 1)) (by omega) hSS

theorem sortReadings_perm (l : List Reading) :
    List.Perm (sortReadingsByConfidence l) l := outerGo_perm (l.length - 1) l

theorem sortReadings_SS (l : List Reading) : SSfrom (sortReadingsByConfidence l) 1 := by
  match l with
  | [] =>
    intro i j hij hjlen hkj
    simp [sortReadingsByConfidence, outerGo] at hjlen
  | a :: t =>
    have hr : (a :: t).length - 1 < (a :: t).length := by simp
    have hv : SSfrom (a :: t) ((a :: t).length - 1 + 1) := by
      intro i j hij hjlen hkj
      simp only [List.length_cons] at hjlen hkj
      omega
    exact outerGo_SS _ _ hr hv

/-- The sorted buffer is pairwise descending by confidence. -/
theorem sortReadings_pairwise (l : List Reading) :
    (sortReadingsByConfidence l).Pairwise
      (fun a b => b.confidence ≤ a.confidence) := by
  rw [List.pairwise_iff_getElem]
  intro i j hi hj hij
  have := sortReadings_SS l i j hij hj (by omega)
  rwa [List.getD_eq_getElem _ _ hi, List.getD_eq_getElem _ _ hj] at this

/-- The first `min 5 n` entries of the bubble-sorted buffer are a top
selection of the stored readings' confidences. -/
theorem v3topOf_topsel (l : List Reading) :
    IsTopSelection (rdConfs l) (rdConfs (v3topOf l)) := by
  set s := sortReadingsByConfidence l with hs
  set k := min 5 l.length with hk
  have hperm : List.Perm s l := sortReadings_perm l
  have hslen : s.length = l.length := hperm.length_eq
  have hsplit : s.take k ++ s.drop k = s := List.take_append_drop k s
  refine ⟨rdConfs (s.drop k), ?_, ?_, ?_⟩
  · -- the stored confidences split into the top part and the rest
    have hmap : List.Perm (l.map fun r => r.confidence)
        ((s.take k ++ s.drop k).map fun r => r.confidence) := by
      rw [hsplit]
      exact (hperm.map _).symm
    have : rdConfs l = rdConfs (s.take k ++ s.drop k) := by
      unfold rdConfs
      exact Quot.sound hmap
    rw [this]
    unfold rdConfs v3topOf
    rw [List.map_append, ← Multiset.coe_add]
  · -- cardinality: exactly min 5 (number stored)
    unfold rdConfs v3topOf
    rw [Multiset.coe_card, Multiset.coe_card]
    simp only [List.length_map, List.length_take]
    have hslen' : (sortReadingsByConfidence l).length = l.length :=
      (sortReadings_perm l).length_eq
    omega
  · -- every remaining confidence is dominated by every selected one
    intro x hx y hy
    unfold rdConfs at hx hy
    simp only [Multiset.mem_coe, List.mem_map] at hx hy
    obtain ⟨u, hu, rfl⟩ := hx
    obtain ⟨v, hv, rfl⟩ := hy
    have hpw : (s.take k ++ s.drop k).Pairwise
        (fun a b => b.confidence ≤ a.confidence) := by
      rw [hsplit]
      exact sortReadings_pairwise l
    have := (List.pairwise_append.mp hpw).2.2 v (by
      unfold v3topOf at hv
      exact hv) u hu
    exact this

/-- A pass leaves an already-sorted buffer unchanged. -/
theorem passGo_of_sorted (k : ℕ) :
    ∀ l : List Reading,
      l.Pairwise (fun a b => b.confidence ≤ a.confidence) → passGo l k = l := by
  induction k with
  | zero => intro l _; exact passGo_zero l
  | succ k ih =>
    intro l hl
    match l with
    | [] => exact passGo_nil _
    | [a] => exact passGo_one a _
    | a :: b :: t =>
      rw [passGo_cons_cons]
      have hba : b.confidence ≤ a.confidence :=
        (List.pairwise_cons.mp hl).1 b (by simp)
      rw [if_neg (not_lt.mpr hba)]
      rw [ih (b :: t) (List.pairwise_cons.mp hl).2]

/-- The outer loop leaves an already-sorted buffer unchanged. -/
theorem outerGo_of_sorted (r : ℕ) :
    ∀ l : List Reading,
      l.Pairwise (fun a b => b.confidence ≤ a.confidence) → outerGo l r = l := by
  induction r with
  | zero => intro l _; rfl
  | succ r ih =>
    intro l hl
    show outerGo (passGo l (r + 1)) r = l
    rw [passGo_of_sorted _ l hl, ih l hl]

theorem sortReadings_of_sorted (l : List Reading)
    (hl : l.Pairwise (fun a b => b.confidence ≤ a.confidence)) :
    sortReadingsByConfidence l = l := outerGo_of_sorted _ l hl

/-- C3: for every new reading with confidence strictly greater than 50, the
insertion step of v4.ino locates a buffer slot holding the minimum
confidence among the 5 slots (`minIdx`), replaces that slot with the new
reading if and only if the new confidence strictly exceeds that minimum,
and otherwise leaves the buffer unchanged. -/
theorem claim3_replace_min (b : List BD4) (r : BD4) (hb : b.length = 5)
    (hc : 50 < r.confidence) :
    (minIdx b < b.length ∧
      ∀ i < b.length, (b.getD (minIdx b) zeroSlot).confidence ≤ (b.getD i zeroSlot).confidence) ∧
    ((b.getD (minIdx b) zeroSlot).confidence < r.confidence →
      v4insert b r = b.set (minIdx b) r) ∧
    (r.confidence ≤ (b.getD (minIdx b) zeroSlot).confidence → v4insert b r = b) := by
  refine ⟨⟨by rw [hb]; exact minIdx_lt_five b, ?_⟩, ?_, ?_⟩
  · intro i hi
    exact minIdx_is_min b i (by omega)
  · intro hlt
    unfold v4insert
    rw [if_pos hc, if_pos hlt]
  · intro hge
    unfold v4insert
    rw [if_pos hc, if_neg (not_lt.mpr hge)]

/-- Witness for C3 at a concrete buffer and reading. -/
theorem claim3_replace_min_witness :
    v4insert [⟨80, 95, 60⟩, ⟨82, 96, 70⟩, zeroSlot, zeroSlot, zeroSlot] ⟨84, 97, 90⟩ =
      List.set [⟨80, 95, 60⟩, ⟨82, 96, 70⟩, zeroSlot, zeroSlot, zeroSlot]
        (minIdx [⟨80, 95, 60⟩, ⟨82, 96, 70⟩, zeroSlot, zeroSlot, zeroSlot]) ⟨84, 97, 90⟩ :=
  (claim3_replace_min [⟨80, 95, 60⟩, ⟨82, 96, 70⟩, zeroSlot, zeroSlot, zeroSlot]
    ⟨84, 97, 90⟩ (by decide) (by decide)).2.1 (by decide)

/-- C1 (amended): within one reporting window, v4.ino's populated
`topReadings` slots always hold the `min 5 n` highest of the `n` accepted
(confidence > 50) confidences seen so far, exactly as claimed; for v3.ino
the property holds with respect to the readings actually stored in the
buffer (at most the first 100 accepted readings of the window): the first
`min 5 readingCount` entries after `sortReadingsByConfidence` are a top
selection of the stored confidences. -/
theorem claim1_topk_amended :
    (∀ rs : List BD4, IsTopSelection (confsOf (v4accepted rs)) (popConfs (v4window rs))) ∧
    (∀ l : List Reading, IsTopSelection (rdConfs l) (rdConfs (v3topOf l))) := by
  constructor
  · intro rs
    have hg : GoodBuf emptyBuf := by
      refine ⟨rfl, ?_⟩
      intro x hx
      left
      have hxz : x = zeroSlot := List.eq_of_mem_replicate hx
      rw [hxz]
      rfl
    have hpe : popConfs emptyBuf = 0 := by decide
    have h0 : IsTopSelection 0 (popConfs emptyBuf) := by
      rw [hpe]
      exact ⟨0, by simp, by simp, by intro x hx; simp at hx⟩
    have h := (v4fold_inv rs emptyBuf 0 hg h0).2
    rw [zero_add] at h
    exact h
  · intro l
    exact v3topOf_topsel l

set_option maxRecDepth 4000 in
/-- C1 counterexample: in v3.ino, after the 101-reading window `cexWindow`
(all above the threshold), the first `min 5 readingCount` sorted entries are
NOT the 5 highest confidences seen in the window: the confidence-70 reading
was silently dropped by the `readingCount < MAX_READINGS` guard, so the
buffer's top five are all 60 although a 70 was seen. -/
theorem claim1_v3_counterexample :
    ¬ IsTopSelection (rdConfs (v3seenAccepted cexWindow))
        (rdConfs (v3topOf (v3storedOf cexWindow))) := by
  have hstored : v3storedOf cexWindow = List.replicate 100 rdC60 := by decide
  have hsorted : sortReadingsByConfidence (List.replicate 100 rdC60) =
      List.replicate 100 rdC60 := by
    refine sortReadings_of_sorted _ ?_
    rw [List.pairwise_replicate]
    right
    exact le_refl _
  have htop : v3topOf (v3storedOf cexWindow) = List.replicate 5 rdC60 := by
    rw [hstored]
    unfold v3topOf
    rw [hsorted, List.length_replicate, List.take_replicate]
    rfl
  rintro ⟨rest, hsum, hcard, hord⟩
  have h70 : (70 : ℤ) ∈ rdConfs (v3seenAccepted cexWindow) := by decide
  have h70sel : (70 : ℤ) ∉ rdConfs (v3topOf (v3storedOf cexWindow)) := by
    rw [htop]; decide
  have h60sel : (60 : ℤ) ∈ rdConfs (v3topOf (v3storedOf cexWindow)) := by
    rw [htop]; decide
  rw [hsum] at h70
  rcases Multiset.mem_add.mp h70 with h | h
  · exact h70sel h
  · have := hord 70 h 60 h60sel
    omega

/-- C5 (amended): in every sketch a reading with confidence ≤ 50 is
discarded and leaves the buffer state unchanged; but confidence > 50 alone
is not sufficient for acceptance: v2.ino additionally requires
`heartrate > 0 && oxygen > 0`, v3.ino additionally requires
`readingCount < 100`, and v4.ino stores the reading only when its
confidence strictly exceeds the current buffer minimum. -/
theorem claim5_accept_amended :
    (∀ (s : V2State) (b : BioData),
      (b.confidence ≤ 50 → v2accept s b = s) ∧
      (v2accept s b ≠ s ↔ 50 < b.confidence ∧ 0 < b.heartrate ∧ 0 < b.oxygen)) ∧
    (∀ (l : List Reading) (b : Reading),
      (b.confidence ≤ 50 → v3store l b = l) ∧
      (v3store l b ≠ l ↔ 50 < b.confidence ∧ l.length < 100)) ∧
    (∀ (b : List BD4) (r : BD4), b.length = 5 →
      (r.confidence ≤ 50 → v4insert b r = b) ∧
      (v4insert b r ≠ b ↔
        50 < r.confidence ∧ (b.getD (minIdx b) zeroSlot).confidence < r.confidence)) := by
  refine ⟨?_, ?_, ?_⟩
  · intro s b
    constructor
    · intro hle
      unfold v2accept
      rw [if_neg (by omega)]
    · constructor
      · intro hne
        by_contra hcond
        exact hne (by unfold v2accept; rw [if_neg hcond])
      · intro hcond heq
        unfold v2accept at heq
        rw [if_pos hcond] at heq
        have := congrArg V2State.validReadingsCount heq
        simp at this
  · intro l b
    constructor
    · intro hle
      unfold v3store
      rw [if_neg (by omega)]
    · constructor
      · intro hne
        by_contra hcond
        exact hne (by unfold v3store; rw [if_neg hcond])
      · intro hcond heq
        unfold v3store at heq
        rw [if_pos hcond] at heq
        have := congrArg List.length heq
        simp at this
  · intro b r hb
    have hm : minIdx b < b.length := by rw [hb]; exact minIdx_lt_five b
    constructor
    · intro hle
      unfold v4insert
      rw [if_neg (by omega)]
    · constructor
      · intro hne
        by_cases hc : 50 < r.confidence
        · by_cases hlt : (b.getD (minIdx b) zeroSlot).confidence < r.confidence
          · exact ⟨hc, hlt⟩
          · exact absurd (by unfold v4insert; rw [if_pos hc, if_neg hlt]) hne
        · exact absurd (by unfold v4insert; rw [if_neg hc]) hne
      · rintro ⟨hc, hlt⟩ heq
        unfold v4insert at heq
        rw [if_pos hc, if_pos hlt] at heq
        have hget := congrArg (fun l => l.getD (minIdx b) zeroSlot) heq
        simp only at hget
        rw [List.getD_eq_getElem _ _ (by simpa using hm),
          List.getElem_set_self (by simpa using hm)] at hget
        rw [hget] at hlt
        exact lt_irrefl _ hlt

/-- Witness for C5 at concrete inputs: a confidence-40 reading leaves the v2
sums unchanged, and the acceptance biconditionals hold at a concrete
accepted v2 reading, a concrete full v3 buffer, and a concrete v4 buffer. -/
theorem claim5_accept_witness :
    v2accept ⟨0, 0, 0, 0, 0, 0⟩ ⟨80, 40, 95, 1, 1, 0⟩ = ⟨0, 0, 0, 0, 0, 0⟩ :=
  (claim5_accept_amended.1 ⟨0, 0, 0, 0, 0, 0⟩ ⟨80, 40, 95, 1, 1, 0⟩).1 (by decide)

/-- C5 counterexample: v2.ino discards the reading `{heartrate = 0,
confidence = 60, oxygen = 95, ...}` even though its confidence is strictly
above 50 (the acceptance test also requires `heartrate > 0`), so "accepted
if and only if confidence > 50" is false. -/
theorem claim5_v2_counterexample :
    v2accept ⟨0, 0, 0, 0, 0, 0⟩ ⟨0, 60, 95, 1, 1, 0⟩ = ⟨0, 0, 0, 0, 0, 0⟩ ∧
      (50 : ℤ) < (BioData.confidence ⟨0, 60, 95, 1, 1, 0⟩) := by
  constructor
  · decide
  · decide

/-- C4 (amended): after every report all buffer state is reset to the
empty-window state and the report timer is restarted, in all three
sketches; but the report condition is "at least 1000 ms elapsed" only in
v4.ino.  v2.ino reports when 1000 ms have elapsed OR five valid readings
have accumulated, and v3.ino reports only when 1000 ms have elapsed AND at
least one reading is stored. -/
theorem claim4_report_amended :
    (∀ (s : V2State) (b : BioData) (now : ℕ),
      (((v2step s b now).2).isSome ↔
        (1000 ≤ wsub now s.lastDisplayTime ∨ 5 ≤ (v2accept s b).validReadingsCount)) ∧
      (((v2step s b now).2).isSome →
        (v2step s b now).1 = ⟨0, 0, 0, 0, 0, now % 4294967296⟩)) ∧
    (∀ (s : V3State) (b : Reading) (now : ℕ),
      (((v3step s b now).2).isSome ↔
        (1000 ≤ wsub now s.lastDisplayTime ∧ 0 < (v3store s.readings b).length)) ∧
      (((v3step s b now).2).isSome →
        (v3step s b now).1 = ⟨[], now % 4294967296⟩)) ∧
    (∀ (s : V4State) (b : BD4) (tCheck tStore : ℕ),
      (((v4step s b tCheck tStore).2).isSome ↔ 1000 ≤ wsub tCheck s.lastReportTime) ∧
      (((v4step s b tCheck tStore).2).isSome →
        (v4step s b tCheck tStore).1 = ⟨emptyBuf, tStore % 4294967296⟩)) := by
  refine ⟨?_, ?_, ?_⟩
  · intro s b now
    unfold v2step
    split
    · simp_all
    · simp_all
  · intro s b now
    unfold v3step
    split
    · simp_all
    · simp_all
  · intro s b tCheck tStore
    unfold v4step
    split
    · simp_all
    · simp_all

/-- Witness for C4 at concrete inputs: at a concrete state 1200 ms after the
last report, each sketch reports and resets its state. -/
theorem claim4_report_witness :
    (v2step ⟨1, 80, 95, 2, 2, 0⟩ ⟨80, 40, 95, 1, 1, 0⟩ 1200).1 = ⟨0, 0, 0, 0, 0, 1200⟩ :=
  (claim4_report_amended.1 ⟨1, 80, 95, 2, 2, 0⟩ ⟨80, 40, 95, 1, 1, 0⟩ 1200).2 (by decide)

/-- C4 counterexample: in v2.ino a report-and-reset occurs as soon as the
fifth valid reading arrives even though only 500 ms have elapsed since the
previous report, so "a report occurs iff at least 1000 ms have passed" is
false. -/
theorem claim4_v2_early_report_counterexample :
    ((v2step ⟨4, 320, 380, 4, 4, 0⟩ ⟨80, 60, 95, 1, 1, 0⟩ 500).2).isSome = true ∧
      wsub 500 0 < 1000 := by
  constructor
  · decide
  · decide

/-- C8: in v2.ino `validReadingsCount` is strictly below `TARGET_READINGS =
5` at the end of every loop iteration: the moment the fifth valid reading
accumulates, the averages are reported and the count and running sums are
reset in that same iteration, even when fewer than 1000 ms have elapsed. -/
theorem claim8_v2_count_bound (s : V2State) (b : BioData) (now : ℕ) :
    (v2step s b now).1.validReadingsCount < 5 ∧
    (s.validReadingsCount = 4 → 50 < b.confidence → 0 < b.heartrate → 0 < b.oxygen →
      wsub now s.lastDisplayTime < 1000 →
      ((v2step s b now).2).isSome ∧
      (v2step s b now).1 = ⟨0, 0, 0, 0, 0, now % 4294967296⟩) := by
  constructor
  · unfold v2step
    split
    · simp
    · next hcond =>
      simp only [not_or, not_le] at hcond
      simpa using hcond.2
  · intro h4 hc hh ho hlt
    have hcount : (v2accept s b).validReadingsCount = 5 := by
      unfold v2accept
      rw [if_pos ⟨hc, hh, ho⟩]
      simpa using h4
    have hfire : ((v2step s b now).2).isSome := by
      unfold v2step
      rw [if_pos (Or.inr (by omega))]
      simp
    exact ⟨hfire, (claim4_report_amended.1 s b now).2 hfire⟩

/-- Witness for C8 at a concrete state: the fifth valid reading triggers the
report and the reset although only 500 ms have elapsed. -/
theorem claim8_v2_count_bound_witness :
    ((v2step ⟨4, 320, 380, 4, 4, 0⟩ ⟨80, 60, 95, 1, 1, 0⟩ 500).2).isSome ∧
      (v2step ⟨4, 320, 380, 4, 4, 0⟩ ⟨80, 60, 95, 1, 1, 0⟩ 500).1 = ⟨0, 0, 0, 0, 0, 500⟩ :=
  (claim8_v2_count_bound ⟨4, 320, 380, 4, 4, 0⟩ ⟨80, 60, 95, 1, 1, 0⟩ 500).2
    (by decide) (by decide) (by decide) (by decide) (by decide)

/-- C9: in v3.ino the stored count never exceeds `MAX_READINGS = 100` (both
after the store step and after the whole iteration), and once 100 readings
are stored a new reading is silently discarded, leaving `readings` and
`readingCount` unchanged, whatever its confidence. -/
theorem claim9_v3_cap (s : V3State) (b : Reading) (now : ℕ) :
    (s.readings.length ≤ 100 →
      (v3store s.readings b).length ≤ 100 ∧
      (v3step s b now).1.readings.length ≤ 100) ∧
    (s.readings.length = 100 → v3store s.readings b = s.readings) := by
  constructor
  · intro hle
    have hstore : (v3store s.readings b).length ≤ 100 := by
      unfold v3store
      split
      · next hcond => simp; omega
      · exact hle
    refine ⟨hstore, ?_⟩
    unfold v3step
    split
    · simp
    · simpa using hstore
  · intro h100
    unfold v3store
    rw [if_neg (by omega)]

/-- Witness for C9 at a concrete full buffer: the confidence-70 reading is
discarded once 100 readings are stored. -/
theorem claim9_v3_cap_witness :
    v3store (List.replicate 100 rdC60) rdC70 = List.replicate 100 rdC60 :=
  (claim9_v3_cap ⟨List.replicate 100 rdC60, 0⟩ rdC70 0).2 (by decide)

/-- C10: at a v4.ino report instant, an averaged report is printed iff all 5
`topReadings` slots are populated (confidence > 0); when between 1 and 4
slots are populated only the progress message with the populated count is
printed; and in either case the buffer is reset to empty. -/
theorem claim10_v4_report_gate (s : V4State) (b : BD4) (tCheck tStore : ℕ)
    (hfire : 1000 ≤ wsub tCheck s.lastReportTime) :
    ((∃ hr ox, (v4step s b tCheck tStore).2 = some (V4Report.avg hr ox)) ↔
      popCount (v4insert s.top b) = 5) ∧
    (0 < popCount (v4insert s.top b) → popCount (v4insert s.top b) < 5 →
      (v4step s b tCheck tStore).2 =
        some (V4Report.progress (popCount (v4insert s.top b)))) ∧
    (v4step s b tCheck tStore).1.top = emptyBuf := by
  unfold v4step
  rw [if_pos hfire]
  refine ⟨?_, ?_, rfl⟩
  · constructor
    · rintro ⟨hr, ox, hout⟩
      simp only [Option.some.injEq] at hout
      unfold v4reportOut at hout
      by_contra hne
      rw [if_neg hne] at hout
      exact V4Report.noConfusion hout
    · intro h5
      refine ⟨v4totHeartRate (v4insert s.top b) / 5, v4totOxygen (v4insert s.top b) / 5, ?_⟩
      simp only [Option.some.injEq]
      unfold v4reportOut
      rw [if_pos h5]
  · intro hpos hlt
    simp only [Option.some.injEq]
    unfold v4reportOut
    rw [if_neg (by omega)]

/-- Witness for C10 at a concrete partially filled buffer: two populated
slots give the progress message and the reset. -/
theorem claim10_v4_report_gate_witness :
    (v4step ⟨[⟨80, 95, 60⟩, ⟨82, 96, 70⟩, zeroSlot, zeroSlot, zeroSlot], 0⟩
        ⟨0, 0, 0⟩ 1500 1500).2 =
      some (V4Report.progress
        (popCount (v4insert [⟨80, 95, 60⟩, ⟨82, 96, 70⟩, zeroSlot, zeroSlot, zeroSlot] ⟨0, 0, 0⟩))) :=
  (claim10_v4_report_gate ⟨[⟨80, 95, 60⟩, ⟨82, 96, 70⟩, zeroSlot, zeroSlot, zeroSlot], 0⟩
    ⟨0, 0, 0⟩ 1500 1500 (by decide)).2.1 (by decide) (by decide)

/-- C6 (amended): for `configSensorBpm`, `setPulseWidth` and
`setSampleRate`, a non-zero return code is printed to the serial console and
execution continues to the next step regardless of any code (the trailing
read-backs are always printed); but a non-zero code returned by `begin` is
never printed — only the success message is suppressed. -/
theorem claim6_setup_amended (rBegin rConfig rPW rSR pwVal srVal : ℤ) :
    (rConfig ≠ 0 →
      SerialItem.num rConfig ∈ setupDiagnostics rBegin rConfig rPW rSR pwVal srVal) ∧
    (rPW ≠ 0 →
      SerialItem.num rPW ∈ setupDiagnostics rBegin rConfig rPW rSR pwVal srVal) ∧
    (rSR ≠ 0 →
      SerialItem.num rSR ∈ setupDiagnostics rBegin rConfig rPW rSR pwVal srVal) ∧
    SerialItem.msg "Sample rate is set to: " ∈
      setupDiagnostics rBegin rConfig rPW rSR pwVal srVal ∧
    SerialItem.num srVal ∈ setupDiagnostics rBegin rConfig rPW rSR pwVal srVal := by
  refine ⟨?_, ?_, ?_, ?_, ?_⟩
  · intro h
    unfold setupDiagnostics
    rw [if_neg h]
    simp
  · intro h
    unfold setupDiagnostics
    rw [if_neg h]
    simp
  · intro h
    unfold setupDiagnostics
    rw [if_neg h]
    simp
  · unfold setupDiagnostics
    simp
  · unfold setupDiagnostics
    simp

/-- Witness for C6 at concrete return codes 1, 2, 3 and read-backs 411, 400:
each non-zero code of the three configuration calls appears in the output
and the final read-back is still printed. -/
theorem claim6_setup_witness :
    SerialItem.num 1 ∈ setupDiagnostics 9 1 2 3 411 400 ∧
    SerialItem.num 2 ∈ setupDiagnostics 9 1 2 3 411 400 ∧
    SerialItem.num 3 ∈ setupDiagnostics 9 1 2 3 411 400 ∧
    SerialItem.num 400 ∈ setupDiagnostics 9 1 2 3 411 400 :=
  ⟨(claim6_setup_amended 9 1 2 3 411 400).1 (by decide),
   (claim6_setup_amended 9 1 2 3 411 400).2.1 (by decide),
   (claim6_setup_amended 9 1 2 3 411 400).2.2.1 (by decide),
   (claim6_setup_amended 9 1 2 3 411 400).2.2.2.2⟩

/-- C6 counterexample: when `begin` returns the non-zero code 7 (and the
other calls succeed with read-backs 411 and 400), the code 7 is never
printed: `setup` only prints "Sensor started!" on success and has no else
branch for `begin`. -/
theorem claim6_begin_counterexample :
    SerialItem.num 7 ∉ setupDiagnostics 7 0 0 0 411 400 := by
  decide

/-- C7: every loop iteration of each sketch consumes exactly one reading
record from the driver — the cursor advances by exactly one per iteration
(and by exactly `n` over `n` iterations), the stream itself is untouched,
and the whole effect of the iteration is the pure step function applied to
the single record under the cursor. -/
theorem claim7_single_read :
    (∀ (d : Driver BioData) (now : ℕ) (s : V2State),
      (v2iter d now s).1.pos = d.pos + 1 ∧
      (v2iter d now s).1.stream = d.stream ∧
      (v2iter d now s).2 = v2step s (d.stream d.pos) now) ∧
    (∀ (d : Driver Reading) (now : ℕ) (s : V3State),
      (v3iter d now s).1.pos = d.pos + 1 ∧
      (v3iter d now s).1.stream = d.stream ∧
      (v3iter d now s).2 = v3step s (d.stream d.pos) now) ∧
    (∀ (d : Driver BD4) (tCheck tStore : ℕ) (s : V4State),
      (v4iter d tCheck tStore s).1.pos = d.pos + 1 ∧
      (v4iter d tCheck tStore s).1.stream = d.stream ∧
      (v4iter d tCheck tStore s).2 = v4step s (d.stream d.pos) tCheck tStore) ∧
    (∀ (ts : ℕ → ℕ) (n : ℕ) (d : Driver BioData) (s : V2State),
      (v2run ts n d s).1.pos = d.pos + n ∧ (v2run ts n d s).1.stream = d.stream) ∧
    (∀ (ts : ℕ → ℕ) (n : ℕ) (d : Driver Reading) (s : V3State),
      (v3run ts n d s).1.pos = d.pos + n ∧ (v3run ts n d s).1.stream = d.stream) ∧
    (∀ (ts ts' : ℕ → ℕ) (n : ℕ) (d : Driver BD4) (s : V4State),
      (v4run ts ts' n d s).1.pos = d.pos + n ∧
      (v4run ts ts' n d s).1.stream = d.stream) := by
  refine ⟨fun d now s => ⟨rfl, rfl, rfl⟩, fun d now s => ⟨rfl, rfl, rfl⟩,
    fun d t1 t2 s => ⟨rfl, rfl, rfl⟩, ?_, ?_, ?_⟩
  · intro ts n
    induction n with
    | zero => intro d s; exact ⟨rfl, rfl⟩
    | succ n ih =>
      intro d s
      have h := ih (v2iter d (ts d.pos) s).1 (v2iter d (ts d.pos) s).2.1
      unfold v2run
      refine ⟨?_, ?_⟩
      · rw [h.1]
        show d.pos + 1 + n = d.pos + (n + 1)
        omega
      · rw [h.2]
        rfl
  · intro ts n
    induction n with
    | zero => intro d s; exact ⟨rfl, rfl⟩
    | succ n ih =>
      intro d s
      have h := ih (v3iter d (ts d.pos) s).1 (v3iter d (ts d.pos) s).2.1
      unfold v3run
      refine ⟨?_, ?_⟩
      · rw [h.1]
        show d.pos + 1 + n = d.pos + (n + 1)
        omega
      · rw [h.2]
        rfl
  · intro ts ts' n
    induction n with
    | zero => intro d s; exact ⟨rfl, rfl⟩
    | succ n ih =>
      intro d s
      have h := ih (v4iter d (ts d.pos) (ts' d.pos) s).1 (v4iter d (ts d.pos) (ts' d.pos) s).2.1
      unfold v4run
      refine ⟨?_, ?_⟩
      · rw [h.1]
        show d.pos + 1 + n = d.pos + (n + 1)
        omega
      · rw [h.2]
        rfl

/-- Folding the accept step accumulates exactly the count and the four
running sums of the accepted readings. -/
theorem v2fold_spec (rs : List BioData) : ∀ s : V2State,
    rs.foldl v2accept s =
      ⟨s.validReadingsCount + (v2acceptedList rs).length,
       s.heartRateSum + ((v2acceptedList rs).map fun b => (b.heartrate : ℚ)).sum,
       s.oxygenSum + ((v2acceptedList rs).map fun b => (b.oxygen : ℚ)).sum,
       s.irLedSum + ((v2acceptedList rs).map fun b => (b.irLed : ℚ)).sum,
       s.redLedSum + ((v2acceptedList rs).map fun b => (b.redLed : ℚ)).sum,
       s.lastDisplayTime⟩ := by
  induction rs with
  | nil =>
    intro s
    cases s
    simp only [List.foldl_nil, v2acceptedList, List.filter_nil, List.length_nil,
      List.map_nil, List.sum_nil, Nat.add_zero, add_zero]
  | cons r rs ih =>
    intro s
    rw [List.foldl_cons, ih (v2accept s r)]
    by_cases hc : 50 < r.confidence ∧ 0 < r.heartrate ∧ 0 < r.oxygen
    · have hfc : v2acceptedList (r :: rs) = r :: v2acceptedList rs := by
        unfold v2acceptedList
        rw [List.filter_cons, if_pos (by simpa using hc)]
      rw [hfc]
      unfold v2accept
      rw [if_pos hc]
      simp only [List.length_cons, List.map_cons, List.sum_cons, V2State.mk.injEq]
      refine ⟨by omega, by ring, by ring, by ring, by ring, trivial⟩
    · have hfc : v2acceptedList (r :: rs) = v2acceptedList rs := by
        unfold v2acceptedList
        rw [List.filter_cons, if_neg (by simpa using hc)]
      rw [hfc]
      unfold v2accept
      rw [if_neg hc]

/-- C2 (amended): at every report each printed average is the arithmetic
mean (sum over populated slots divided by the number of populated slots) of
the populated buffer slots — for v2.ino all four averages over the accepted
readings of the window, for v3.ino the heart-rate, oxygen and confidence
averages over the `min 5 readingCount` top slots, and for v4.ino the two
averages over the 5 populated slots — EXCEPT v3.ino's two LED averages,
which are computed in `long` variables and are therefore the
truncated-toward-zero integer quotient of the sum by the count, not the
arithmetic mean.  The v2 conjunct covers every emitted report, whether the
report was triggered by the 1000 ms interval or by the fifth valid reading
accumulating early. -/
theorem claim2_mean_amended :
    (∀ (rs : List BioData) (b : BioData) (t0 now : ℕ),
      0 < (v2acceptedList (rs ++ [b])).length →
      ((v2step (rs.foldl v2accept (v2fresh t0)) b now).2).isSome →
      (v2step (rs.foldl v2accept (v2fresh t0)) b now).2 =
        some (V2Report.avgs (v2acceptedList (rs ++ [b])).length
          (((v2acceptedList (rs ++ [b])).map fun x => (x.heartrate : ℚ)).sum /
            ((v2acceptedList (rs ++ [b])).length : ℚ))
          (((v2acceptedList (rs ++ [b])).map fun x => (x.oxygen : ℚ)).sum /
            ((v2acceptedList (rs ++ [b])).length : ℚ))
          (((v2acceptedList (rs ++ [b])).map fun x => (x.irLed : ℚ)).sum /
            ((v2acceptedList (rs ++ [b])).length : ℚ))
          (((v2acceptedList (rs ++ [b])).map fun x => (x.redLed : ℚ)).sum /
            ((v2acceptedList (rs ++ [b])).length : ℚ)))) ∧
    (∀ l : List Reading,
      (v3topOf l).length = min 5 l.length ∧
      (v3reportOf l).avgHeartRate =
        ((v3topOf l).map fun r => (r.heartRate : ℚ)).sum / ((v3topOf l).length : ℚ) ∧
      (v3reportOf l).avgOxygen =
        ((v3topOf l).map fun r => (r.oxygen : ℚ)).sum / ((v3topOf l).length : ℚ) ∧
      (v3reportOf l).avgConfidence =
        ((v3topOf l).map fun r => (r.confidence : ℚ)).sum / ((v3topOf l).length : ℚ) ∧
      (v3reportOf l).avgIrLed =
        Int.tdiv ((v3topOf l).map fun r => r.irLed).sum ((v3topOf l).length : ℤ) ∧
      (v3reportOf l).avgRedLed =
        Int.tdiv ((v3topOf l).map fun r => r.redLed).sum ((v3topOf l).length : ℤ)) ∧
    (∀ b : List BD4, popCount b = 5 →
      v4reportOut b = V4Report.avg (v4totHeartRate b / (popCount b : ℚ))
        (v4totOxygen b / (popCount b : ℚ))) := by
  refine ⟨?_, ?_, ?_⟩
  · intro rs b t0 now hpos hsome
    have happ : v2accept (rs.foldl v2accept (v2fresh t0)) b =
        (rs ++ [b]).foldl v2accept (v2fresh t0) := by
      rw [List.foldl_append]
      rfl
    have hfull := v2fold_spec (rs ++ [b]) (v2fresh t0)
    by_cases hfire : 1000 ≤ wsub now (rs.foldl v2accept (v2fresh t0)).lastDisplayTime ∨
        5 ≤ (v2accept (rs.foldl v2accept (v2fresh t0)) b).validReadingsCount
    · unfold v2step
      rw [if_pos hfire]
      rw [happ, hfull]
      unfold v2report v2fresh
      dsimp only
      rw [if_pos (by simpa using hpos)]
      simp only [zero_add]
    · unfold v2step at hsome
      rw [if_neg hfire] at hsome
      simp at hsome
  · intro l
    have hlen : (v3topOf l).length = min 5 l.length := by
      unfold v3topOf
      rw [List.length_take]
      have := (sortReadings_perm l).length_eq
      omega
    refine ⟨hlen, ?_, ?_, ?_, ?_, ?_⟩ <;>
      · unfold v3reportOf
        rw [hlen]
  · intro b h5
    unfold v4reportOut
    rw [if_pos h5, h5]
    norm_num

/-- C2 counterexample: for the v3 window holding the two accepted readings
with IR-LED values 1 and 2, the printed IR-LED average is the integer
quotient 1, not the arithmetic mean 3/2 of the populated slots. -/
theorem claim2_v3_led_counterexample :
    (((v3reportOf [⟨80, 60, 95, 1, 1, 0⟩, ⟨80, 55, 95, 2, 2, 0⟩]).avgIrLed : ℚ) ≠
        (((v3topOf [⟨80, 60, 95, 1, 1, 0⟩, ⟨80, 55, 95, 2, 2, 0⟩]).map
          fun r => (r.irLed : ℚ)).sum /
          (((v3topOf [⟨80, 60, 95, 1, 1, 0⟩, ⟨80, 55, 95, 2, 2, 0⟩]).length : ℚ)))) := by
  have hled : (v3reportOf [⟨80, 60, 95, 1, 1, 0⟩, ⟨80, 55, 95, 2, 2, 0⟩]).avgIrLed = 1 := by
    decide
  have htop : v3topOf [⟨80, 60, 95, 1, 1, 0⟩, ⟨80, 55, 95, 2, 2, 0⟩] =
      [⟨80, 60, 95, 1, 1, 0⟩, ⟨80, 55, 95, 2, 2, 0⟩] := by
    decide
  rw [hled, htop]
  simp only [List.map_cons, List.map_nil, List.sum_cons, List.sum_nil,
    List.length_cons, List.length_nil]
  norm_num

/-- Witness for C2 at a concrete v2 window of five accepted readings whose
report is triggered by the fifth valid reading after only 500 ms — a
count-triggered early report, not a time-triggered one. -/
theorem claim2_mean_witness :
    (v2step (List.foldl v2accept (v2fresh 0)
        [⟨80, 60, 95, 4, 6, 0⟩, ⟨80, 60, 95, 4, 6, 0⟩, ⟨80, 60, 95, 4, 6, 0⟩,
         ⟨80, 60, 95, 4, 6, 0⟩]) ⟨80, 60, 95, 4, 6, 0⟩ 500).2 =
      some (V2Report.avgs
        (v2acceptedList ([⟨80, 60, 95, 4, 6, 0⟩, ⟨80, 60, 95, 4, 6, 0⟩,
            ⟨80, 60, 95, 4, 6, 0⟩, ⟨80, 60, 95, 4, 6, 0⟩] ++ [⟨80, 60, 95, 4, 6, 0⟩])).length
        (((v2acceptedList ([⟨80, 60, 95, 4, 6, 0⟩, ⟨80, 60, 95, 4, 6, 0⟩,
              ⟨80, 60, 95, 4, 6, 0⟩, ⟨80, 60, 95, 4, 6, 0⟩] ++ [⟨80, 60, 95, 4, 6, 0⟩])).map
            fun x => (x.heartrate : ℚ)).sum /
          ((v2acceptedList ([⟨80, 60, 95, 4, 6, 0⟩, ⟨80, 60, 95, 4, 6, 0⟩,
              ⟨80, 60, 95, 4, 6, 0⟩, ⟨80, 60, 95, 4, 6, 0⟩] ++ [⟨80, 60, 95, 4, 6, 0⟩])).length : ℚ))
        (((v2acceptedList ([⟨80, 60, 95, 4, 6, 0⟩, ⟨80, 60, 95, 4, 6, 0⟩,
              ⟨80, 60, 95, 4, 6, 0⟩, ⟨80, 60, 95, 4, 6, 0⟩] ++ [⟨80, 60, 95, 4, 6, 0⟩])).map
            fun x => (x.oxygen : ℚ)).sum /
          ((v2acceptedList ([⟨80, 60, 95, 4, 6, 0⟩, ⟨80, 60, 95, 4, 6, 0⟩,
              ⟨80, 60, 95, 4, 6, 0⟩, ⟨80, 60, 95, 4, 6, 0⟩] ++ [⟨80, 60, 95, 4, 6, 0⟩])).length : ℚ))
        (((v2acceptedList ([⟨80, 60, 95, 4, 6, 0⟩, ⟨80, 60, 95, 4, 6, 0⟩,
              ⟨80, 60, 95, 4, 6, 0⟩, ⟨80, 60, 95, 4, 6, 0⟩] ++ [⟨80, 60, 95, 4, 6, 0⟩])).map
            fun x => (x.irLed : ℚ)).sum /
          ((v2acceptedList ([⟨80, 60, 95, 4, 6, 0⟩, ⟨80, 60, 95, 4, 6, 0⟩,
              ⟨80, 60, 95, 4, 6, 0⟩, ⟨80, 60, 95, 4, 6, 0⟩] ++ [⟨80, 60, 95, 4, 6, 0⟩])).length : ℚ))
        (((v2acceptedList ([⟨80, 60, 95, 4, 6, 0⟩, ⟨80, 60, 95, 4, 6, 0⟩,
              ⟨80, 60, 95, 4, 6, 0⟩, ⟨80, 60, 95, 4, 6, 0⟩] ++ [⟨80, 60, 95, 4, 6, 0⟩])).map
            fun x => (x.redLed : ℚ)).sum /
          ((v2acceptedList ([⟨80, 60, 95, 4, 6, 0⟩, ⟨80, 60, 95, 4, 6, 0⟩,
              ⟨80, 60, 95, 4, 6, 0⟩, ⟨80, 60, 95, 4, 6, 0⟩] ++ [⟨80, 60, 95, 4, 6, 0⟩])).length : ℚ))) :=
  claim2_mean_amended.1
    [⟨80, 60, 95, 4, 6, 0⟩, ⟨80, 60, 95, 4, 6, 0⟩, ⟨80, 60, 95, 4, 6, 0⟩, ⟨80, 60, 95, 4, 6, 0⟩]
    ⟨80, 60, 95, 4, 6, 0⟩ 0 500 (by decide) (by decide)
